import Mathlib

/-!
Verification of the Hex Canary worker process
(`src/runtime/canary/hex_canary_worker.py`).

The worker speaks a length-prefixed JSON protocol over a byte stream:
each frame is a 4-byte big-endian length followed by that many bytes of
UTF-8 encoded JSON.  This file gives a shallow embedding of the worker:
byte-level framing (`read_message` / `write_message`), a JSON value type
with a serializer and parser modelling the `json` standard library, the
runtime object (`CanaryRuntime` with `load` and `transcribe`), and the
dispatch loop of `main`.  External collaborators (the NeMo model, the
file system, availability of the MPS backend) are parameters of an
environment record `Env`.  The theorems at the end settle the frozen
claims about the worker's protocol and lifecycle.
-/

namespace HexCanary

/-! ## Big-endian byte serialization of natural numbers

Models Python's `int.to_bytes(n, "big")` / `int.from_bytes(bs, "big")`
as used for the 4-byte length prefix of every frame. -/

def toBytesBE : Nat → Nat → List Nat
  | 0, _ => []
  | k + 1, n => toBytesBE k (n / 256) ++ [n % 256]

def fromBytesBE (bs : List Nat) : Nat :=
  bs.foldl (fun a b => a * 256 + b) 0

theorem length_toBytesBE (k n : Nat) : (toBytesBE k n).length = k := by
  induction k generalizing n with
  | zero => rfl
  | succ k ih => simp [toBytesBE, ih]

theorem fromBytesBE_toBytesBE (k n : Nat) (h : n < 256 ^ k) :
    fromBytesBE (toBytesBE k n) = n := by
  induction k generalizing n with
  | zero =>
    have : n = 0 := by simpa using h
    simp [this, toBytesBE, fromBytesBE]
  | succ k ih =>
    have hdiv : n / 256 < 256 ^ k := by
      rw [Nat.div_lt_iff_lt_mul (by norm_num)]
      calc n < 256 ^ (k + 1) := h
        _ = 256 ^ k * 256 := by ring
    have := ih (n / 256) hdiv
    simp only [toBytesBE, fromBytesBE] at this ⊢
    rw [List.foldl_append]
    simp only [List.foldl_cons, List.foldl_nil]
    rw [this]
    omega

/-! ## UTF-8 encoding and decoding

Models `str.encode("utf-8")` and the byte-level decoding performed by
`json.loads` when handed a `bytes` payload. -/

def utf8EncodeChar (c : Char) : List Nat :=
  if c.toNat < 0x80 then [c.toNat]
  else if c.toNat < 0x800 then [0xC0 + c.toNat / 64, 0x80 + c.toNat % 64]
  else if c.toNat < 0x10000 then
    [0xE0 + c.toNat / 4096, 0x80 + c.toNat / 64 % 64, 0x80 + c.toNat % 64]
  else
    [0xF0 + c.toNat / 262144, 0x80 + c.toNat / 4096 % 64, 0x80 + c.toNat / 64 % 64,
      0x80 + c.toNat % 64]

def utf8Encode (cs : List Char) : List Nat :=
  cs.flatMap utf8EncodeChar

/-- Decode one scalar value from a first byte `b` and the following bytes
`bs`; on success returns the character and how many bytes of `bs` it
consumed.  A missing lookahead byte is read as `0`, which is never a valid
continuation byte, so truncated input fails exactly as in a real decoder. -/
def utf8DecodeStep (b : Nat) (bs : List Nat) : Option (Char × Nat) :=
  if b < 0x80 then some (Char.ofNat b, 0)
  else if b < 0xC2 then none
  else if b < 0xE0 then
    if 0x80 ≤ bs.headD 0 ∧ bs.headD 0 < 0xC0 then
      some (Char.ofNat ((b - 0xC0) * 64 + (bs.headD 0 - 0x80)), 1)
    else none
  else if b < 0xF0 then
    if (0x80 ≤ bs.headD 0 ∧ bs.headD 0 < 0xC0) ∧
        (0x80 ≤ (bs.drop 1).headD 0 ∧ (bs.drop 1).headD 0 < 0xC0) then
      if 0x800 ≤ (b - 0xE0) * 4096 + (bs.headD 0 - 0x80) * 64 + ((bs.drop 1).headD 0 - 0x80) ∧
          ((b - 0xE0) * 4096 + (bs.headD 0 - 0x80) * 64 + ((bs.drop 1).headD 0 - 0x80) < 0xD800 ∨
            0xDFFF < (b - 0xE0) * 4096 + (bs.headD 0 - 0x80) * 64 + ((bs.drop 1).headD 0 - 0x80)) then
        some (Char.ofNat
          ((b - 0xE0) * 4096 + (bs.headD 0 - 0x80) * 64 + ((bs.drop 1).headD 0 - 0x80)), 2)
      else none
    else none
  else if b < 0xF5 then
    if (0x80 ≤ bs.headD 0 ∧ bs.headD 0 < 0xC0) ∧
        (0x80 ≤ (bs.drop 1).headD 0 ∧ (bs.drop 1).headD 0 < 0xC0) ∧
        (0x80 ≤ (bs.drop 2).headD 0 ∧ (bs.drop 2).headD 0 < 0xC0) then
      if 0x10000 ≤ (b - 0xF0) * 262144 + (bs.headD 0 - 0x80) * 4096 +
            ((bs.drop 1).headD 0 - 0x80) * 64 + ((bs.drop 2).headD 0 - 0x80) ∧
          (b - 0xF0) * 262144 + (bs.headD 0 - 0x80) * 4096 +
            ((bs.drop 1).headD 0 - 0x80) * 64 + ((bs.drop 2).headD 0 - 0x80) < 0x110000 then
        some (Char.ofNat ((b - 0xF0) * 262144 + (bs.headD 0 - 0x80) * 4096 +
          ((bs.drop 1).headD 0 - 0x80) * 64 + ((bs.drop 2).headD 0 - 0x80)), 3)
      else none
    else none
  else none

def utf8DecodeF : Nat → List Nat → Option (List Char)
  | _, [] => some []
  | 0, _ :: _ => none
  | fuel + 1, b :: bs =>
    match utf8DecodeStep b bs with
    | some (c, k) => (utf8DecodeF fuel (bs.drop k)).map (fun cs => c :: cs)
    | none => none

def utf8Decode (bs : List Nat) : Option (List Char) :=
  utf8DecodeF bs.length bs

theorem utf8DecodeF_irrel : ∀ (f1 : Nat) (f2 : Nat) (bs : List Nat),
    bs.length ≤ f1 → bs.length ≤ f2 → utf8DecodeF f1 bs = utf8DecodeF f2 bs := by
  intro f1
  induction f1 with
  | zero =>
    intro f2 bs h1 _
    have : bs = [] := by
      cases bs with
      | nil => rfl
      | cons b t => simp at h1
    subst this
    cases f2 <;> rfl
  | succ f1 ih =>
    intro f2 bs h1 h2
    cases bs with
    | nil => cases f2 <;> rfl
    | cons b t =>
      cases f2 with
      | zero => simp at h2
      | succ f2 =>
        simp only [utf8DecodeF]
        cases utf8DecodeStep b t with
        | none => rfl
        | some p =>
          obtain ⟨c, k⟩ := p
          have hlen : (t.drop k).length ≤ f1 ∧ (t.drop k).length ≤ f2 := by
            constructor <;> · simp only [List.length_drop]; simp at h1 h2; omega
          dsimp only
          rw [ih f2 (t.drop k) hlen.1 hlen.2]

theorem utf8DecodeF_encodeChar (c : Char) (X : List Nat) (f : Nat) :
    utf8DecodeF (f + 1) (utf8EncodeChar c ++ X) = (utf8DecodeF f X).map (fun cs => c :: cs) := by
  have hvalid : c.toNat < 0xd800 ∨ (0xdfff < c.toNat ∧ c.toNat < 0x110000) := c.valid
  by_cases h1 : c.toNat < 0x80
  · simp only [utf8EncodeChar, if_pos h1, List.cons_append, List.nil_append]
    simp only [utf8DecodeF, utf8DecodeStep, if_pos h1, Char.ofNat_toNat, List.drop_zero]
  · by_cases h2 : c.toNat < 0x800
    · simp only [utf8EncodeChar, if_neg h1, if_pos h2, List.cons_append, List.nil_append]
      simp only [utf8DecodeF, utf8DecodeStep, List.headD_cons]
      rw [if_neg (by omega), if_neg (by omega), if_pos (by omega),
        if_pos (by constructor <;> omega)]
      have harg : (0xC0 + c.toNat / 64 - 0xC0) * 64 + (0x80 + c.toNat % 64 - 0x80) = c.toNat := by
        omega
      rw [harg, Char.ofNat_toNat]
      rfl
    · by_cases h3 : c.toNat < 0x10000
      · simp only [utf8EncodeChar, if_neg h1, if_neg h2, if_pos h3, List.cons_append,
          List.nil_append]
        simp only [utf8DecodeF, utf8DecodeStep, List.headD_cons, List.drop_one, List.tail_cons]
        rw [if_neg (by omega), if_neg (by omega), if_neg (by omega), if_pos (by omega),
          if_pos (by constructor <;> constructor <;> omega)]
        have harg : (0xE0 + c.toNat / 4096 - 0xE0) * 4096 + (0x80 + c.toNat / 64 % 64 - 0x80) * 64
            + (0x80 + c.toNat % 64 - 0x80) = c.toNat := by
          omega
        rw [if_pos (by omega), harg, Char.ofNat_toNat]
        rfl
      · have h4 : c.toNat < 0x110000 := by omega
        simp only [utf8EncodeChar, if_neg h1, if_neg h2, if_neg h3, List.cons_append,
          List.nil_append]
        simp only [utf8DecodeF, utf8DecodeStep, List.headD_cons, List.drop_one, List.tail_cons,
          List.drop_succ_cons, List.drop_zero]
        rw [if_neg (by omega), if_neg (by omega), if_neg (by omega), if_neg (by omega),
          if_pos (by omega),
          if_pos (by refine ⟨⟨by omega, by omega⟩, ⟨by omega, by omega⟩, by omega, by omega⟩)]
        have harg : (0xF0 + c.toNat / 262144 - 0xF0) * 262144
            + (0x80 + c.toNat / 4096 % 64 - 0x80) * 4096
            + (0x80 + c.toNat / 64 % 64 - 0x80) * 64 + (0x80 + c.toNat % 64 - 0x80) = c.toNat := by
          omega
        rw [if_pos (by omega), harg, Char.ofNat_toNat]
        rfl

theorem length_utf8EncodeChar_pos (c : Char) : 0 < (utf8EncodeChar c).length := by
  unfold utf8EncodeChar
  split
  · simp
  · split
    · simp
    · split <;> simp

theorem utf8DecodeF_encode_append : ∀ (cs : List Char) (bs : List Nat) (fuel : Nat),
    (utf8Encode cs ++ bs).length ≤ fuel →
    utf8DecodeF fuel (utf8Encode cs ++ bs) = (utf8DecodeF bs.length bs).map (fun ds => cs ++ ds) := by
  intro cs
  induction cs with
  | nil =>
    intro bs fuel h
    simp only [utf8Encode, List.flatMap_nil, List.nil_append] at h ⊢
    rw [utf8DecodeF_irrel fuel bs.length bs h le_rfl]
    cases utf8DecodeF bs.length bs <;> simp
  | cons c cs ih =>
    intro bs fuel h
    have hch := length_utf8EncodeChar_pos c
    have hlen : 1 ≤ fuel := by
      simp only [utf8Encode, List.flatMap_cons, List.length_append, List.length_append] at h
      omega
    obtain ⟨f, rfl⟩ : ∃ f, fuel = f + 1 := ⟨fuel - 1, by omega⟩
    simp only [utf8Encode, List.flatMap_cons, List.append_assoc] at h ⊢
    rw [show List.flatMap cs utf8EncodeChar = utf8Encode cs from rfl] at h ⊢
    rw [utf8DecodeF_encodeChar]
    rw [ih bs f (by simp only [List.length_append] at h ⊢; omega)]
    cases utf8DecodeF bs.length bs <;> simp

theorem utf8Decode_encode (cs : List Char) : utf8Decode (utf8Encode cs) = some cs := by
  unfold utf8Decode
  have h := utf8DecodeF_encode_append cs [] (utf8Encode cs).length (by simp)
  simp only [List.append_nil] at h
  rw [h]
  simp [utf8DecodeF]

/-! ## JSON values

Python values exchanged by the worker, as produced by `json.loads` and
consumed by `json.dumps`.  Arrays and objects are encoded as cons-chains
(`acons`/`anil`, `ocons`/`onil`) so that every definition below is plain
structural recursion. -/

inductive JVal where
  | jnull
  | jbool (b : Bool)
  | jnum (n : Int)
  | jstr (s : List Char)
  | anil
  | acons (hd tl : JVal)
  | onil
  | ocons (key : List Char) (value : JVal) (tl : JVal)
  deriving DecidableEq, Repr

/-! ## Serializer: model of `json.dumps`

Follows CPython's `json.dumps(obj)` with all defaults: the separators are
a comma-space between items and a colon-space after keys, and strings are
escaped with the default `ensure_ascii=True`, so besides the quote, the
backslash and the control characters, every character outside the
printable ASCII range `0x20`-`0x7E` is written as a `\uXXXX` escape —
as a surrogate pair for characters above `0xFFFF`. -/

def hexDigitChar (n : Nat) : Char :=
  if n < 10 then Char.ofNat (48 + n) else Char.ofNat (87 + n)

/-- A 4-digit lowercase-hex escape, CPython's `'\\u{0:04x}'.format(n)`. -/
def uEsc (n : Nat) : List Char :=
  ['\\', 'u', hexDigitChar (n / 4096 % 16), hexDigitChar (n / 256 % 16),
    hexDigitChar (n / 16 % 16), hexDigitChar (n % 16)]

def escChar (c : Char) : List Char :=
  if c = '"' then ['\\', '"']
  else if c = '\\' then ['\\', '\\']
  else if c = '\n' then ['\\', 'n']
  else if c = '\t' then ['\\', 't']
  else if c = '\r' then ['\\', 'r']
  else if c.toNat = 8 then ['\\', 'b']
  else if c.toNat = 12 then ['\\', 'f']
  else if c.toNat < 0x20 then uEsc c.toNat
  else if c.toNat < 0x7F then [c]
  else if c.toNat < 0x10000 then uEsc c.toNat
  else uEsc (0xD800 + (c.toNat - 0x10000) / 1024) ++ uEsc (0xDC00 + (c.toNat - 0x10000) % 1024)

def dumpStr (s : List Char) : List Char :=
  '"' :: (s.flatMap escChar ++ ['"'])

def natCharsRec : Nat → Nat → List Char → List Char
  | 0, _, acc => acc
  | f + 1, n, acc =>
    if n = 0 then acc else natCharsRec f (n / 10) (Char.ofNat (48 + n % 10) :: acc)

def natChars (n : Nat) : List Char :=
  if n = 0 then ['0'] else natCharsRec n n []

def intChars (n : Int) : List Char :=
  if n < 0 then '-' :: natChars n.natAbs else natChars n.natAbs

/-- `dumpF 0 v` is the serialization of `v`; modes `1` and `2` render the
tail of an array (resp. object) chain, including the closing bracket. -/
def dumpF : Nat → JVal → List Char
  | 0, .jnull => [ 'n', 'u', 'l', 'l' ]
  | 0, .jbool true => [ 't', 'r', 'u', 'e' ]
  | 0, .jbool false => [ 'f', 'a', 'l', 's', 'e' ]
  | 0, .jnum n => intChars n
  | 0, .jstr s => dumpStr s
  | 0, .anil => [ '[', ']' ]
  | 0, .acons h t => '[' :: (dumpF 0 h ++ dumpF 1 t)
  | 0, .onil => [ '\x7b', '\x7d' ]
  | 0, .ocons k v t => '\x7b' :: (dumpStr k ++ ':' :: ' ' :: (dumpF 0 v ++ dumpF 2 t))
  | 1, .acons h t => ',' :: ' ' :: (dumpF 0 h ++ dumpF 1 t)
  | 1, _ => [ ']' ]
  | 2, .ocons k v t => ',' :: ' ' :: (dumpStr k ++ ':' :: ' ' :: (dumpF 0 v ++ dumpF 2 t))
  | 2, _ => [ '\x7d' ]
  | _, _ => []

def jsonDumps (v : JVal) : List Char :=
  dumpF 0 v

/-! ## Parser: model of `json.loads` -/

def hexVal (c : Char) : Option Nat :=
  if '0' ≤ c ∧ c ≤ '9' then some (c.toNat - 48)
  else if 'a' ≤ c ∧ c ≤ 'f' then some (c.toNat - 87)
  else if 'A' ≤ c ∧ c ≤ 'F' then some (c.toNat - 55)
  else none

def hex4 (h1 h2 h3 h4 : Char) : Option Nat :=
  match hexVal h1, hexVal h2, hexVal h3, hexVal h4 with
  | some d1, some d2, some d3, some d4 => some (d1 * 4096 + d2 * 256 + d3 * 16 + d4)
  | _, _, _, _ => none

def isWsChar (c : Char) : Bool :=
  c = ' ' || c = '\n' || c = '\t' || c = '\r'

def skipWs : List Char → List Char
  | [] => []
  | c :: r => if isWsChar c then skipWs r else c :: r

def escTable (e : Char) : Option Char :=
  if e = '"' then some '"'
  else if e = '\\' then some '\\'
  else if e = '/' then some '/'
  else if e = 'n' then some '\n'
  else if e = 't' then some '\t'
  else if e = 'r' then some '\r'
  else if e = 'b' then some (Char.ofNat 8)
  else if e = 'f' then some (Char.ofNat 12)
  else none

/-- One unit of a JSON string body at head character `c` with tail `r`:
`some (none, 0)` is the closing quote, `some (some ch, k)` emits `ch`
consuming `k` further characters of `r`, and `none` is a decode error.
Follows CPython's scanner: a `\uXXXX` escape whose value is a high
surrogate and which is immediately followed by a low-surrogate `\uYYYY`
escape is combined into one scalar value; after a high surrogate, a
`\u` escape with invalid hex is an error, and in the remaining cases
the lone surrogate is kept (it falls outside Lean's scalar values, so
`Char.ofNat` maps it to the null character — a corner the ASCII-only
encoder above never produces).  A missing lookahead character is read as
a space, which is not a valid escape or hex digit, so truncated input
fails exactly as in the real scanner. -/
def strStep (c : Char) (r : List Char) : Option (Option Char × Nat) :=
  if c = '"' then some (none, 0)
  else if c = '\\' then
    if r.headD ' ' = 'u' then
      match hex4 ((r.drop 1).headD ' ') ((r.drop 2).headD ' ') ((r.drop 3).headD ' ')
          ((r.drop 4).headD ' ') with
      | some v =>
        if 0xD800 ≤ v ∧ v < 0xDC00 then
          if (r.drop 5).headD ' ' = '\\' ∧ (r.drop 6).headD ' ' = 'u' then
            match hex4 ((r.drop 7).headD ' ') ((r.drop 8).headD ' ') ((r.drop 9).headD ' ')
                ((r.drop 10).headD ' ') with
            | some w =>
              if 0xDC00 ≤ w ∧ w < 0xE000 then
                some (some (Char.ofNat (0x10000 + (v - 0xD800) * 1024 + (w - 0xDC00))), 11)
              else some (some (Char.ofNat v), 5)
            | none => none
          else some (some (Char.ofNat v), 5)
        else some (some (Char.ofNat v), 5)
      | none => none
    else
      match escTable (r.headD ' ') with
      | some d => some (some d, 1)
      | none => none
  else if c.toNat < 0x20 then none
  else some (some c, 0)

/-- `strStep` driven over the input; every step consumes at least the
head character, so fuel equal to the input length always suffices. -/
def parseStrF : Nat → List Char → Option (List Char × List Char)
  | _, [] => none
  | 0, _ :: _ => none
  | fuel + 1, c :: r =>
    match strStep c r with
    | some (none, _) => some ([], r)
    | some (some ch, k) => (parseStrF fuel (r.drop k)).map (fun p => (ch :: p.1, p.2))
    | none => none

/-- Body of a JSON string after the opening quote, up to and including the
closing quote. -/
def parseStrBody (s : List Char) : Option (List Char × List Char) :=
  parseStrF s.length s

def parseDigitsAux : List Char → Nat → Nat × List Char
  | [], acc => (acc, [])
  | c :: r, acc => if c.isDigit then parseDigitsAux r (acc * 10 + (c.toNat - 48)) else (acc, c :: r)

def parseDigits : List Char → Option (Nat × List Char)
  | [] => none
  | c :: r => if c.isDigit then some (parseDigitsAux r (c.toNat - 48)) else none

/-- One JSON value; `parr` and `pobj` parse the elements of a non-empty
array (resp. object) after the opening bracket. -/
def parseValBody (parr pobj : List Char → Option (JVal × List Char)) (s : List Char) :
    Option (JVal × List Char) :=
  match skipWs s with
  | [] => none
  | c :: r =>
    if c = 'n' then
      if r.take 3 = [ 'u', 'l', 'l' ] then some (JVal.jnull, r.drop 3) else none
    else if c = 't' then
      if r.take 3 = [ 'r', 'u', 'e' ] then some (JVal.jbool true, r.drop 3) else none
    else if c = 'f' then
      if r.take 4 = [ 'a', 'l', 's', 'e' ] then some (JVal.jbool false, r.drop 4) else none
    else if c = '"' then (parseStrBody r).map (fun p => (JVal.jstr p.1, p.2))
    else if c = '[' then
      if (skipWs r).take 1 = [ ']' ] then some (JVal.anil, (skipWs r).drop 1)
      else parr (skipWs r)
    else if c = '\x7b' then
      if (skipWs r).take 1 = [ '\x7d' ] then some (JVal.onil, (skipWs r).drop 1)
      else pobj (skipWs r)
    else if c = '-' then (parseDigits r).map (fun p => (JVal.jnum (-(p.1 : Int)), p.2))
    else if c.isDigit then (parseDigits (c :: r)).map (fun p => (JVal.jnum ((p.1 : Int)), p.2))
    else none

/-- Elements of a non-empty array, up to and including the closing bracket. -/
def parseElemsBody (pval pelems : List Char → Option (JVal × List Char)) (s : List Char) :
    Option (JVal × List Char) :=
  match pval s with
  | some (v, r) =>
    if (skipWs r).take 1 = [ ',' ] then
      match pelems ((skipWs r).drop 1) with
      | some (tl, r3) => some (JVal.acons v tl, r3)
      | none => none
    else if (skipWs r).take 1 = [ ']' ] then some (JVal.acons v JVal.anil, (skipWs r).drop 1)
    else none
  | none => none

/-- Members of a non-empty object, up to and including the closing brace. -/
def parseMembersBody (pval pmem : List Char → Option (JVal × List Char)) (s : List Char) :
    Option (JVal × List Char) :=
  if (skipWs s).take 1 = [ '"' ] then
    match parseStrBody ((skipWs s).drop 1) with
    | some (key, r2) =>
      if (skipWs r2).take 1 = [ ':' ] then
        match pval ((skipWs r2).drop 1) with
        | some (v, r4) =>
          if (skipWs r4).take 1 = [ ',' ] then
            match pmem ((skipWs r4).drop 1) with
            | some (tl, r6) => some (JVal.ocons key v tl, r6)
            | none => none
          else if (skipWs r4).take 1 = [ '\x7d' ] then
            some (JVal.ocons key v JVal.onil, (skipWs r4).drop 1)
          else none
        | none => none
      else none
    | none => none
  else none

def parseF : Nat → Nat → List Char → Option (JVal × List Char)
  | 0, _, _ => none
  | fuel + 1, 0, s => parseValBody (parseF fuel 1) (parseF fuel 2) s
  | fuel + 1, 1, s => parseElemsBody (parseF fuel 0) (parseF fuel 1) s
  | fuel + 1, 2, s => parseMembersBody (parseF fuel 0) (parseF fuel 2) s
  | _ + 1, _ + 3, _ => none

def jsonLoads (cs : List Char) : Option JVal :=
  match parseF (2 * cs.length + 2) 0 cs with
  | some (v, r) => if skipWs r = [] then some v else none
  | none => none

/-! ## Round trip of the serializer through the parser -/

theorem skipWs_space (r : List Char) : skipWs (' ' :: r) = skipWs r := rfl

theorem skipWs_quote (r : List Char) : skipWs ('"' :: r) = '"' :: r := rfl

theorem skipWs_colon (r : List Char) : skipWs (':' :: r) = ':' :: r := rfl

theorem skipWs_comma (r : List Char) : skipWs (',' :: r) = ',' :: r := rfl

theorem skipWs_rbrace (r : List Char) : skipWs ('\x7d' :: r) = '\x7d' :: r := rfl

theorem hexVal_hexDigitChar : ∀ n, n < 16 → hexVal (hexDigitChar n) = some n := by decide

theorem hex4_digits (n : Nat) (h : n < 0x10000) :
    hex4 (hexDigitChar (n / 4096 % 16)) (hexDigitChar (n / 256 % 16))
      (hexDigitChar (n / 16 % 16)) (hexDigitChar (n % 16)) = some n := by
  unfold hex4
  rw [hexVal_hexDigitChar (n / 4096 % 16) (by omega),
    hexVal_hexDigitChar (n / 256 % 16) (by omega),
    hexVal_hexDigitChar (n / 16 % 16) (by omega),
    hexVal_hexDigitChar (n % 16) (by omega)]
  show some (n / 4096 % 16 * 4096 + n / 256 % 16 * 256 + n / 16 % 16 * 16 + n % 16) = some n
  exact congrArg some (by omega)

theorem strStep_close (r : List Char) : strStep '"' r = some (none, 0) := by
  unfold strStep
  rw [if_pos rfl]

theorem strStep_table (e d : Char) (rest : List Char) (hne : e ≠ 'u')
    (ht : escTable e = some d) :
    strStep '\\' (e :: rest) = some (some d, 1) := by
  unfold strStep
  rw [if_neg (by decide), if_pos (by decide)]
  rw [show ((e : Char) :: rest).headD ' ' = e from rfl]
  rw [if_neg hne, ht]

theorem strStep_lit (c : Char) (rest : List Char) (h1 : ¬c = '"') (h2 : ¬c = '\\')
    (h3 : ¬c.toNat < 0x20) :
    strStep c rest = some (some c, 0) := by
  unfold strStep
  rw [if_neg h1, if_neg h2, if_neg h3]

theorem strStep_u (d1 d2 d3 d4 : Char) (v : Nat) (rest : List Char)
    (hh : hex4 d1 d2 d3 d4 = some v) (hns : ¬(0xD800 ≤ v ∧ v < 0xDC00)) :
    strStep '\\' ('u' :: d1 :: d2 :: d3 :: d4 :: rest) = some (some (Char.ofNat v), 5) := by
  unfold strStep
  rw [if_neg (by decide), if_pos (by decide)]
  rw [show (('u' : Char) :: d1 :: d2 :: d3 :: d4 :: rest).headD ' ' = 'u' from rfl]
  rw [if_pos rfl]
  rw [show ((('u' : Char) :: d1 :: d2 :: d3 :: d4 :: rest).drop 1).headD ' ' = d1 from rfl]
  rw [show ((('u' : Char) :: d1 :: d2 :: d3 :: d4 :: rest).drop 2).headD ' ' = d2 from rfl]
  rw [show ((('u' : Char) :: d1 :: d2 :: d3 :: d4 :: rest).drop 3).headD ' ' = d3 from rfl]
  rw [show ((('u' : Char) :: d1 :: d2 :: d3 :: d4 :: rest).drop 4).headD ' ' = d4 from rfl]
  rw [hh]
  dsimp only
  rw [if_neg hns]

theorem strStep_pair (d1 d2 d3 d4 g1 g2 g3 g4 : Char) (v w : Nat) (rest : List Char)
    (hhv : hex4 d1 d2 d3 d4 = some v) (hv : 0xD800 ≤ v ∧ v < 0xDC00)
    (hhw : hex4 g1 g2 g3 g4 = some w) (hw : 0xDC00 ≤ w ∧ w < 0xE000) :
    strStep '\\' ('u' :: d1 :: d2 :: d3 :: d4 :: '\\' :: 'u' :: g1 :: g2 :: g3 :: g4 :: rest) =
      some (some (Char.ofNat (0x10000 + (v - 0xD800) * 1024 + (w - 0xDC00))), 11) := by
  unfold strStep
  rw [if_neg (by decide), if_pos (by decide)]
  rw [show (('u' : Char) :: d1 :: d2 :: d3 :: d4 :: '\\' :: 'u' :: g1 :: g2 :: g3 :: g4 ::
    rest).headD ' ' = 'u' from rfl]
  rw [if_pos rfl]
  rw [show ((('u' : Char) :: d1 :: d2 :: d3 :: d4 :: '\\' :: 'u' :: g1 :: g2 :: g3 :: g4 ::
    rest).drop 1).headD ' ' = d1 from rfl]
  rw [show ((('u' : Char) :: d1 :: d2 :: d3 :: d4 :: '\\' :: 'u' :: g1 :: g2 :: g3 :: g4 ::
    rest).drop 2).headD ' ' = d2 from rfl]
  rw [show ((('u' : Char) :: d1 :: d2 :: d3 :: d4 :: '\\' :: 'u' :: g1 :: g2 :: g3 :: g4 ::
    rest).drop 3).headD ' ' = d3 from rfl]
  rw [show ((('u' : Char) :: d1 :: d2 :: d3 :: d4 :: '\\' :: 'u' :: g1 :: g2 :: g3 :: g4 ::
    rest).drop 4).headD ' ' = d4 from rfl]
  rw [hhv]
  dsimp only
  rw [if_pos hv]
  rw [show ((('u' : Char) :: d1 :: d2 :: d3 :: d4 :: '\\' :: 'u' :: g1 :: g2 :: g3 :: g4 ::
    rest).drop 5).headD ' ' = '\\' from rfl]
  rw [show ((('u' : Char) :: d1 :: d2 :: d3 :: d4 :: '\\' :: 'u' :: g1 :: g2 :: g3 :: g4 ::
    rest).drop 6).headD ' ' = 'u' from rfl]
  rw [if_pos ⟨rfl, rfl⟩]
  rw [show ((('u' : Char) :: d1 :: d2 :: d3 :: d4 :: '\\' :: 'u' :: g1 :: g2 :: g3 :: g4 ::
    rest).drop 7).headD ' ' = g1 from rfl]
  rw [show ((('u' : Char) :: d1 :: d2 :: d3 :: d4 :: '\\' :: 'u' :: g1 :: g2 :: g3 :: g4 ::
    rest).drop 8).headD ' ' = g2 from rfl]
  rw [show ((('u' : Char) :: d1 :: d2 :: d3 :: d4 :: '\\' :: 'u' :: g1 :: g2 :: g3 :: g4 ::
    rest).drop 9).headD ' ' = g3 from rfl]
  rw [show ((('u' : Char) :: d1 :: d2 :: d3 :: d4 :: '\\' :: 'u' :: g1 :: g2 :: g3 :: g4 ::
    rest).drop 10).headD ' ' = g4 from rfl]
  rw [hhw]
  dsimp only
  rw [if_pos hw]

theorem parseStrF_cons (fuel : Nat) (c : Char) (r : List Char) :
    parseStrF (fuel + 1) (c :: r) =
      match strStep c r with
      | some (none, _) => some ([], r)
      | some (some ch, k) => (parseStrF fuel (r.drop k)).map (fun p => (ch :: p.1, p.2))
      | none => none := rfl

theorem length_uEsc (n : Nat) : (uEsc n).length = 6 := rfl

theorem length_escChar_pos (c : Char) : 0 < (escChar c).length := by
  by_cases h1 : c = '"'
  · unfold escChar
    rw [if_pos h1]
    decide
  by_cases h2 : c = '\\'
  · unfold escChar
    rw [if_neg h1, if_pos h2]
    decide
  by_cases h3 : c = '\n'
  · unfold escChar
    rw [if_neg h1, if_neg h2, if_pos h3]
    decide
  by_cases h4 : c = '\t'
  · unfold escChar
    rw [if_neg h1, if_neg h2, if_neg h3, if_pos h4]
    decide
  by_cases h5 : c = '\r'
  · unfold escChar
    rw [if_neg h1, if_neg h2, if_neg h3, if_neg h4, if_pos h5]
    decide
  by_cases h6 : c.toNat = 8
  · unfold escChar
    rw [if_neg h1, if_neg h2, if_neg h3, if_neg h4, if_neg h5, if_pos h6]
    decide
  by_cases h7 : c.toNat = 12
  · unfold escChar
    rw [if_neg h1, if_neg h2, if_neg h3, if_neg h4, if_neg h5, if_neg h6, if_pos h7]
    decide
  by_cases h8 : c.toNat < 0x20
  · unfold escChar
    rw [if_neg h1, if_neg h2, if_neg h3, if_neg h4, if_neg h5, if_neg h6, if_neg h7, if_pos h8,
      length_uEsc]
    decide
  by_cases h9 : c.toNat < 0x7F
  · unfold escChar
    rw [if_neg h1, if_neg h2, if_neg h3, if_neg h4, if_neg h5, if_neg h6, if_neg h7, if_neg h8,
      if_pos h9]
    simp
  by_cases h10 : c.toNat < 0x10000
  · unfold escChar
    rw [if_neg h1, if_neg h2, if_neg h3, if_neg h4, if_neg h5, if_neg h6, if_neg h7, if_neg h8,
      if_neg h9, if_pos h10, length_uEsc]
    decide
  · unfold escChar
    rw [if_neg h1, if_neg h2, if_neg h3, if_neg h4, if_neg h5, if_neg h6, if_neg h7, if_neg h8,
      if_neg h9, if_neg h10, List.length_append, length_uEsc, length_uEsc]
    decide

theorem parseStrF_escChar (c : Char) (rest : List Char) (f : Nat) :
    parseStrF (f + 1) (escChar c ++ rest) = (parseStrF f rest).map (fun p => (c :: p.1, p.2)) := by
  have hvalid : c.toNat < 0xd800 ∨ (0xdfff < c.toNat ∧ c.toNat < 0x110000) := c.valid
  by_cases h1 : c = '"'
  · subst h1
    simp only [show escChar '"' = ['\\', '"'] from by decide, List.cons_append, List.nil_append]
    rw [parseStrF_cons]
    rw [strStep_table '"' '"' rest (by decide) (by decide)]
    dsimp only
    rw [show (('"' : Char) :: rest).drop 1 = rest from rfl]
  by_cases h2 : c = '\\'
  · subst h2
    simp only [show escChar '\\' = ['\\', '\\'] from by decide, List.cons_append, List.nil_append]
    rw [parseStrF_cons]
    rw [strStep_table '\\' '\\' rest (by decide) (by decide)]
    dsimp only
    rw [show (('\\' : Char) :: rest).drop 1 = rest from rfl]
  by_cases h3 : c = '\n'
  · subst h3
    simp only [show escChar '\n' = ['\\', 'n'] from by decide, List.cons_append, List.nil_append]
    rw [parseStrF_cons]
    rw [strStep_table 'n' '\n' rest (by decide) (by decide)]
    dsimp only
    rw [show (('n' : Char) :: rest).drop 1 = rest from rfl]
  by_cases h4 : c = '\t'
  · subst h4
    simp only [show escChar '\t' = ['\\', 't'] from by decide, List.cons_append, List.nil_append]
    rw [parseStrF_cons]
    rw [strStep_table 't' '\t' rest (by decide) (by decide)]
    dsimp only
    rw [show (('t' : Char) :: rest).drop 1 = rest from rfl]
  by_cases h5 : c = '\r'
  · subst h5
    simp only [show escChar '\r' = ['\\', 'r'] from by decide, List.cons_append, List.nil_append]
    rw [parseStrF_cons]
    rw [strStep_table 'r' '\r' rest (by decide) (by decide)]
    dsimp only
    rw [show (('r' : Char) :: rest).drop 1 = rest from rfl]
  by_cases h6 : c.toNat = 8
  · have hc : c = Char.ofNat 8 := by rw [← Char.ofNat_toNat c, h6]
    subst hc
    simp only [show escChar (Char.ofNat 8) = ['\\', 'b'] from by decide, List.cons_append,
      List.nil_append]
    rw [parseStrF_cons]
    rw [strStep_table 'b' (Char.ofNat 8) rest (by decide) (by decide)]
    dsimp only
    rw [show (('b' : Char) :: rest).drop 1 = rest from rfl]
  by_cases h7 : c.toNat = 12
  · have hc : c = Char.ofNat 12 := by rw [← Char.ofNat_toNat c, h7]
    subst hc
    simp only [show escChar (Char.ofNat 12) = ['\\', 'f'] from by decide, List.cons_append,
      List.nil_append]
    rw [parseStrF_cons]
    rw [strStep_table 'f' (Char.ofNat 12) rest (by decide) (by decide)]
    dsimp only
    rw [show (('f' : Char) :: rest).drop 1 = rest from rfl]
  by_cases h8 : c.toNat < 0x20
  · simp only [escChar, if_neg h1, if_neg h2, if_neg h3, if_neg h4, if_neg h5, if_neg h6,
      if_neg h7, if_pos h8, uEsc, List.cons_append, List.nil_append]
    rw [parseStrF_cons]
    rw [strStep_u _ _ _ _ c.toNat rest (hex4_digits c.toNat (by omega)) (by omega)]
    dsimp only
    rw [show (('u' : Char) :: hexDigitChar (c.toNat / 4096 % 16) ::
      hexDigitChar (c.toNat / 256 % 16) :: hexDigitChar (c.toNat / 16 % 16) ::
      hexDigitChar (c.toNat % 16) :: rest).drop 5 = rest from rfl]
    rw [Char.ofNat_toNat]
  by_cases h9 : c.toNat < 0x7F
  · simp only [escChar, if_neg h1, if_neg h2, if_neg h3, if_neg h4, if_neg h5, if_neg h6,
      if_neg h7, if_neg h8, if_pos h9, List.cons_append, List.nil_append]
    rw [parseStrF_cons]
    rw [strStep_lit c rest h1 h2 h8]
    dsimp only
    rw [List.drop_zero]
  by_cases h10 : c.toNat < 0x10000
  · simp only [escChar, if_neg h1, if_neg h2, if_neg h3, if_neg h4, if_neg h5, if_neg h6,
      if_neg h7, if_neg h8, if_neg h9, if_pos h10, uEsc, List.cons_append, List.nil_append]
    rw [parseStrF_cons]
    rw [strStep_u _ _ _ _ c.toNat rest (hex4_digits c.toNat (by omega)) (by omega)]
    dsimp only
    rw [show (('u' : Char) :: hexDigitChar (c.toNat / 4096 % 16) ::
      hexDigitChar (c.toNat / 256 % 16) :: hexDigitChar (c.toNat / 16 % 16) ::
      hexDigitChar (c.toNat % 16) :: rest).drop 5 = rest from rfl]
    rw [Char.ofNat_toNat]
  · have hlo : 0x10000 ≤ c.toNat := by omega
    have hhi : c.toNat < 0x110000 := by omega
    simp only [escChar, if_neg h1, if_neg h2, if_neg h3, if_neg h4, if_neg h5, if_neg h6,
      if_neg h7, if_neg h8, if_neg h9, if_neg h10, uEsc, List.cons_append, List.nil_append]
    rw [parseStrF_cons]
    rw [strStep_pair _ _ _ _ _ _ _ _ (0xD800 + (c.toNat - 0x10000) / 1024)
      (0xDC00 + (c.toNat - 0x10000) % 1024) rest
      (hex4_digits (0xD800 + (c.toNat - 0x10000) / 1024) (by omega))
      (by constructor <;> omega)
      (hex4_digits (0xDC00 + (c.toNat - 0x10000) % 1024) (by omega))
      (by constructor <;> omega)]
    dsimp only
    rw [show (('u' : Char) :: hexDigitChar ((0xD800 + (c.toNat - 0x10000) / 1024) / 4096 % 16) ::
      hexDigitChar ((0xD800 + (c.toNat - 0x10000) / 1024) / 256 % 16) ::
      hexDigitChar ((0xD800 + (c.toNat - 0x10000) / 1024) / 16 % 16) ::
      hexDigitChar ((0xD800 + (c.toNat - 0x10000) / 1024) % 16) :: '\\' :: 'u' ::
      hexDigitChar ((0xDC00 + (c.toNat - 0x10000) % 1024) / 4096 % 16) ::
      hexDigitChar ((0xDC00 + (c.toNat - 0x10000) % 1024) / 256 % 16) ::
      hexDigitChar ((0xDC00 + (c.toNat - 0x10000) % 1024) / 16 % 16) ::
      hexDigitChar ((0xDC00 + (c.toNat - 0x10000) % 1024) % 16) :: rest).drop 11 = rest from rfl]
    have harg : 0x10000 + (0xD800 + (c.toNat - 0x10000) / 1024 - 0xD800) * 1024 +
        (0xDC00 + (c.toNat - 0x10000) % 1024 - 0xDC00) = c.toNat := by
      omega
    simp only [harg, Char.ofNat_toNat]

theorem parseStrF_dump : ∀ (s : List Char) (rest : List Char) (fuel : Nat),
    (s.flatMap escChar ++ ('"' :: rest)).length ≤ fuel →
    parseStrF fuel (s.flatMap escChar ++ ('"' :: rest)) = some (s, rest) := by
  intro s
  induction s with
  | nil =>
    intro rest fuel h
    simp only [List.flatMap_nil, List.nil_append] at h ⊢
    obtain ⟨f, rfl⟩ : ∃ f, fuel = f + 1 := ⟨fuel - 1, by simp at h; omega⟩
    rw [parseStrF_cons]
    rw [strStep_close]
  | cons c s ih =>
    intro rest fuel h
    have hpos := length_escChar_pos c
    have hlen : 1 ≤ fuel := by
      simp only [List.flatMap_cons, List.length_append] at h
      omega
    obtain ⟨f, rfl⟩ : ∃ f, fuel = f + 1 := ⟨fuel - 1, by omega⟩
    simp only [List.flatMap_cons, List.append_assoc] at h ⊢
    rw [parseStrF_escChar]
    rw [ih rest f (by simp only [List.length_append] at h ⊢; omega)]
    rfl

theorem parseStrBody_dump (s : List Char) (rest : List Char) :
    parseStrBody (s.flatMap escChar ++ ('"' :: rest)) = some (s, rest) :=
  parseStrF_dump s rest (s.flatMap escChar ++ ('"' :: rest)).length le_rfl

/-- Objects whose values are all strings; the shape of every protocol
message. -/
def isStrObj : JVal → Bool
  | .onil => true
  | .ocons _ (.jstr _) t => isStrObj t
  | _ => false

def memberCount : JVal → Nat
  | .ocons _ _ t => memberCount t + 1
  | _ => 0

/-- The serialized members of a non-empty object, from the first key
through the closing brace. -/
def membersBody : JVal → List Char
  | .ocons k v t => dumpStr k ++ ':' :: ' ' :: (dumpF 0 v ++ dumpF 2 t)
  | _ => []

theorem parseF_str (f : Nat) (sv X : List Char) :
    parseF (f + 1) 0 (' ' :: (dumpStr sv ++ X)) = some (JVal.jstr sv, X) := by
  simp only [parseF, parseValBody, dumpStr, List.cons_append, List.append_assoc,
    skipWs_space, skipWs_quote, List.nil_append]
  simp
  rw [parseStrBody_dump]

theorem parseF_strQ (f : Nat) (sv X : List Char) :
    parseF (f + 1) 0 (' ' :: '"' :: (sv.flatMap escChar ++ '"' :: X)) =
      some (JVal.jstr sv, X) := by
  have h := parseF_str f sv X
  simp only [dumpStr, List.cons_append, List.append_assoc, List.nil_append] at h
  exact h

theorem parseF_ws2 (g : Nat) (s : List Char) :
    parseF (g + 1) 2 (' ' :: s) = parseF (g + 1) 2 s := by
  rw [parseF, parseF, parseMembersBody, parseMembersBody, skipWs_space]

theorem parseF_members : ∀ (o : JVal) (f : Nat) (rest : List Char),
    isStrObj o = true → memberCount o ≤ f → o ≠ JVal.onil →
    parseF (f + 1) 2 (membersBody o ++ rest) = some (o, rest) := by
  intro o
  induction o with
  | jnull => intro f rest hstr _ _; simp [isStrObj] at hstr
  | jbool b => intro f rest hstr _ _; simp [isStrObj] at hstr
  | jnum n => intro f rest hstr _ _; simp [isStrObj] at hstr
  | jstr s => intro f rest hstr _ _; simp [isStrObj] at hstr
  | anil => intro f rest hstr _ _; simp [isStrObj] at hstr
  | acons h t iha ihb => intro f rest hstr _ _; simp [isStrObj] at hstr
  | onil => intro f rest _ _ hne; exact absurd rfl hne
  | ocons k v t ihv iht =>
    intro f rest hstr hcount _
    cases v with
    | jstr sv =>
      have hstr_t : isStrObj t = true := by simpa [isStrObj] using hstr
      have hcount' : memberCount t + 1 ≤ f := by simpa [memberCount] using hcount
      obtain ⟨f1, rfl⟩ : ∃ f1, f = f1 + 1 := ⟨f - 1, by omega⟩
      rw [show membersBody (JVal.ocons k (JVal.jstr sv) t) =
        dumpStr k ++ ':' :: ' ' :: (dumpStr sv ++ dumpF 2 t) from rfl]
      rw [parseF]
      rw [parseMembersBody]
      simp only [dumpStr, List.cons_append, List.append_assoc, skipWs_quote]
      rw [if_pos (by simp)]
      simp only [List.drop_succ_cons, List.drop_zero]
      rw [parseStrBody_dump]
      dsimp only
      simp only [List.nil_append, skipWs_colon]
      rw [if_pos (by simp)]
      simp only [List.drop_succ_cons, List.drop_zero]
      rw [parseF_strQ]
      dsimp only
      cases t with
      | onil =>
        rw [show dumpF 2 JVal.onil = [ Char.ofNat 125 ] from by decide]
        simp only [List.cons_append, List.nil_append]
        rw [show skipWs (Char.ofNat 125 :: rest) = Char.ofNat 125 :: rest from rfl]
        rw [if_neg (by simp), if_pos (by simp)]
        simp
      | ocons k2 v2 t2 =>
        rw [show dumpF 2 (JVal.ocons k2 v2 t2) = ',' :: ' ' :: membersBody (JVal.ocons k2 v2 t2)
          from rfl]
        simp only [List.cons_append, skipWs_comma]
        rw [if_pos (by simp)]
        simp only [List.drop_succ_cons, List.drop_zero]
        rw [parseF_ws2]
        rw [iht f1 rest hstr_t (by omega) (by simp)]
      | jnull => simp [isStrObj] at hstr_t
      | jbool b => simp [isStrObj] at hstr_t
      | jnum n => simp [isStrObj] at hstr_t
      | jstr s2 => simp [isStrObj] at hstr_t
      | anil => simp [isStrObj] at hstr_t
      | acons h2 t2 => simp [isStrObj] at hstr_t
    | jnull => simp [isStrObj] at hstr
    | jbool b => simp [isStrObj] at hstr
    | jnum n => simp [isStrObj] at hstr
    | anil => simp [isStrObj] at hstr
    | acons h2 t2 => simp [isStrObj] at hstr
    | onil => simp [isStrObj] at hstr
    | ocons k2 v2 t2 => simp [isStrObj] at hstr

theorem skipWs_lbrace (r : List Char) : skipWs ('\x7b' :: r) = '\x7b' :: r := rfl

theorem parseF_strObj (o : JVal) (f : Nat) (rest : List Char)
    (hstr : isStrObj o = true) (hcount : memberCount o ≤ f) :
    parseF (f + 2) 0 (dumpF 0 o ++ rest) = some (o, rest) := by
  cases o with
  | onil =>
    rw [show dumpF 0 JVal.onil = [ '\x7b', '\x7d' ] from rfl]
    rw [show f + 2 = f + 1 + 1 from rfl, parseF, parseValBody]
    simp only [List.cons_append, List.nil_append, skipWs_lbrace, skipWs_rbrace]
    simp
  | ocons k v t =>
    rw [show dumpF 0 (JVal.ocons k v t) = '\x7b' :: membersBody (JVal.ocons k v t) from rfl]
    rw [show f + 2 = f + 1 + 1 from rfl, parseF, parseValBody]
    simp only [List.cons_append, skipWs_lbrace]
    rw [show membersBody (JVal.ocons k v t) ++ rest =
      '"' :: (k.flatMap escChar ++ '"' :: (':' :: ' ' :: (dumpF 0 v ++ dumpF 2 t) ++ rest))
      from by simp [membersBody, dumpStr, List.cons_append, List.append_assoc]]
    simp only [skipWs_quote]
    rw [if_neg (by decide), if_neg (by decide), if_neg (by decide), if_neg (by decide),
      if_neg (by decide), if_pos (by decide)]
    rw [if_neg (by simp)]
    rw [show ('"' : Char) :: (k.flatMap escChar ++ '"' ::
      (':' :: ' ' :: (dumpF 0 v ++ dumpF 2 t) ++ rest)) =
      membersBody (JVal.ocons k v t) ++ rest
      from by simp [membersBody, dumpStr, List.cons_append, List.append_assoc]]
    exact parseF_members (JVal.ocons k v t) f rest hstr hcount (by simp)
  | jnull => simp [isStrObj] at hstr
  | jbool b => simp [isStrObj] at hstr
  | jnum n => simp [isStrObj] at hstr
  | jstr s => simp [isStrObj] at hstr
  | anil => simp [isStrObj] at hstr
  | acons h t => simp [isStrObj] at hstr

theorem memberCount_le_dump : ∀ o : JVal,
    memberCount o ≤ (dumpF 2 o).length ∧ memberCount o ≤ (dumpF 0 o).length := by
  intro o
  induction o with
  | jnull => simp [memberCount, dumpF]
  | jbool b => cases b <;> simp [memberCount, dumpF]
  | jnum n => simp [memberCount, dumpF]
  | jstr s => simp [memberCount, dumpF]
  | anil => simp [memberCount, dumpF]
  | acons h t ihh iht => simp [memberCount, dumpF]
  | onil => simp [memberCount, dumpF]
  | ocons k v t ihv iht =>
    simp only [memberCount, dumpF, List.length_cons, List.length_append]
    omega

theorem jsonLoads_dumps_strObj (o : JVal) (hstr : isStrObj o = true) :
    jsonLoads (jsonDumps o) = some o := by
  unfold jsonLoads jsonDumps
  have hcount : memberCount o ≤ 2 * (dumpF 0 o).length := by
    have := (memberCount_le_dump o).2
    omega
  have h := parseF_strObj o (2 * (dumpF 0 o).length) [] hstr hcount
  rw [List.append_nil] at h
  rw [h]
  simp [skipWs]

/-! ## Message framing

`read_message` and `write_message` from the worker source.  A stream is
the full list of bytes the peer sends before closing; `read(n)` on it
yields `min n available` bytes.  `read_message` distinguishes the
`EOFError` raises (short header or short payload) from a `json.loads`
failure, which is an exception the dispatch loop does not catch. -/

inductive ReadResult where
  | eof
  | decodeError
  | ok (message : JVal) (rest : List Nat)
  deriving DecidableEq, Repr

def read_message (s : List Nat) : ReadResult :=
  if (s.take 4).length < 4 then ReadResult.eof
  else
    if ((s.drop 4).take (fromBytesBE (s.take 4))).length ≠ fromBytesBE (s.take 4) then
      ReadResult.eof
    else
      match utf8Decode ((s.drop 4).take (fromBytesBE (s.take 4))) with
      | none => ReadResult.decodeError
      | some chars =>
        match jsonLoads chars with
        | none => ReadResult.decodeError
        | some v => ReadResult.ok v (s.drop (4 + fromBytesBE (s.take 4)))

/-- `write_message` encodes the payload and prefixes its length as 4
big-endian bytes; `int.to_bytes(4, "big")` raises `OverflowError` on a
payload of `2 ^ 32` bytes or more, hence the `Option`. -/
def write_message (v : JVal) : Option (List Nat) :=
  if (utf8Encode (jsonDumps v)).length < 2 ^ 32 then
    some (toBytesBE 4 (utf8Encode (jsonDumps v)).length ++ utf8Encode (jsonDumps v))
  else none

theorem read_message_write (v : JVal) (bs rest : List Nat)
    (hw : write_message v = some bs) (hl : jsonLoads (jsonDumps v) = some v) :
    read_message (bs ++ rest) = ReadResult.ok v rest := by
  unfold write_message at hw
  by_cases hlen : (utf8Encode (jsonDumps v)).length < 2 ^ 32
  case neg => rw [if_neg hlen] at hw; cases hw
  rw [if_pos hlen] at hw
  have hbs := Option.some.inj hw
  subst hbs
  set P := utf8Encode (jsonDumps v) with hP
  rw [List.append_assoc]
  have hlen4 : (toBytesBE 4 P.length).length = 4 := length_toBytesBE 4 P.length
  have htake : (toBytesBE 4 P.length ++ (P ++ rest)).take 4 = toBytesBE 4 P.length := by
    conv_lhs => rw [show (4 : Nat) = (toBytesBE 4 P.length).length from hlen4.symm]
    exact List.take_left _ _
  have hdrop : (toBytesBE 4 P.length ++ (P ++ rest)).drop 4 = P ++ rest := by
    conv_lhs => rw [show (4 : Nat) = (toBytesBE 4 P.length).length from hlen4.symm]
    exact List.drop_left _ _
  have hfrom : fromBytesBE (toBytesBE 4 P.length) = P.length := by
    refine fromBytesBE_toBytesBE 4 P.length ?_
    have h2 : (256 : Nat) ^ 4 = 2 ^ 32 := by norm_num
    rw [h2]
    exact hlen
  have htakeP : (P ++ rest).take P.length = P := List.take_left _ _
  have hdropP : (P ++ rest).drop P.length = rest := List.drop_left _ _
  unfold read_message
  rw [htake, hfrom, hdrop, htakeP, hlen4]
  rw [if_neg (by omega), if_neg (by omega)]
  rw [show utf8Decode P = some (jsonDumps v) from utf8Decode_encode _]
  dsimp only
  rw [hl]
  dsimp only
  rw [show (toBytesBE 4 P.length ++ (P ++ rest)).drop (4 + P.length) =
    ((toBytesBE 4 P.length ++ (P ++ rest)).drop 4).drop P.length from by
      rw [List.drop_drop]]
  rw [hdrop, hdropP]

/-! ## Protocol messages

The closed set of message shapes exchanged on the wire (spec section 6):
inbound `transcribe`/`shutdown` commands, outbound `ready`, `result`,
`error`, `fatal` and `shutdown` replies. -/

inductive Message where
  | transcribe (path : List Char)
  | shutdown
  | ready
  | result (text : List Char)
  | error (message : List Char)
  | fatal (message : List Char)
  | shutdownReply
  deriving DecidableEq, Repr

def msgToJson : Message → JVal
  | .transcribe p =>
    JVal.ocons "command".data (JVal.jstr "transcribe".data)
      (JVal.ocons "path".data (JVal.jstr p) JVal.onil)
  | .shutdown => JVal.ocons "command".data (JVal.jstr "shutdown".data) JVal.onil
  | .ready => JVal.ocons "type".data (JVal.jstr "ready".data) JVal.onil
  | .result t =>
    JVal.ocons "type".data (JVal.jstr "result".data)
      (JVal.ocons "text".data (JVal.jstr t) JVal.onil)
  | .error m =>
    JVal.ocons "type".data (JVal.jstr "error".data)
      (JVal.ocons "error".data (JVal.jstr m) JVal.onil)
  | .fatal m =>
    JVal.ocons "type".data (JVal.jstr "fatal".data)
      (JVal.ocons "error".data (JVal.jstr m) JVal.onil)
  | .shutdownReply => JVal.ocons "type".data (JVal.jstr "shutdown".data) JVal.onil

theorem isStrObj_msgToJson (m : Message) : isStrObj (msgToJson m) = true := by
  cases m <;> rfl

theorem jsonLoads_dumps_msg (m : Message) :
    jsonLoads (jsonDumps (msgToJson m)) = some (msgToJson m) :=
  jsonLoads_dumps_strObj (msgToJson m) (isStrObj_msgToJson m)

/-! ## Python value rendering

`str()` of a Python value, as interpolated by the f-string
`f"Unknown command \x7bcommand\x7d"`. -/

/-- `repr()` of a string: the text wrapped in single quotes. This covers
every string the worker actually renders this way (protocol keys and
command tags); it deliberately omits repr escaping of quotes, backslashes
and control characters inside the string, which no reachable rendering
exercises. -/
def pyReprStr (s : List Char) : List Char :=
  Char.ofNat 39 :: (s ++ [ Char.ofNat 39 ])

/-- `str(KeyError(k))` is the repr of the missing key: the key wrapped in
single quotes (`str(KeyError('path'))` is `'path'` including the quotes). -/
def keyErrorStr (k : List Char) : List Char :=
  Char.ofNat 39 :: (k ++ [ Char.ofNat 39 ])

def pyReprF : Nat → JVal → List Char
  | 0, .jnull => "None".data
  | 0, .jbool true => "True".data
  | 0, .jbool false => "False".data
  | 0, .jnum n => intChars n
  | 0, .jstr s => pyReprStr s
  | 0, .anil => [ '[', ']' ]
  | 0, .acons h t => '[' :: (pyReprF 0 h ++ pyReprF 1 t)
  | 0, .onil => [ '\x7b', '\x7d' ]
  | 0, .ocons k v t => '\x7b' :: (pyReprStr k ++ ':' :: ' ' :: (pyReprF 0 v ++ pyReprF 2 t))
  | 1, .acons h t => ',' :: ' ' :: (pyReprF 0 h ++ pyReprF 1 t)
  | 1, _ => [ ']' ]
  | 2, .ocons k v t => ',' :: ' ' :: (pyReprStr k ++ ':' :: ' ' :: (pyReprF 0 v ++ pyReprF 2 t))
  | 2, _ => [ '\x7d' ]
  | _, _ => []

def pyStr : JVal → List Char
  | .jstr s => s
  | v => pyReprF 0 v

def pyStrOpt : Option JVal → List Char
  | none => "None".data
  | some v => pyStr v

/-! ## The Canary runtime

`CanaryRuntime` holds the parsed configuration and the Engine Handle
(`model`, empty until `load`).  The engine type `E`, the model restore
call, the file system and the inference call are external collaborators
collected in `Env`. -/

structure RuntimeConfig where
  model_path : List Char
  device : List Char
  deriving DecidableEq, Repr

structure Env (E : Type) where
  mpsAvailable : Bool
  restore : List Char → Except (List Char) E
  readFile : List Char → Except (List Char) (List Nat)
  generate : E → List ℚ → Except (List Char) JVal

structure CanaryRuntime (E : Type) where
  config : RuntimeConfig
  model : Option E

/-- `CanaryRuntime.load`: a no-op when the model is already loaded,
otherwise restores from the configured checkpoint path. -/
def CanaryRuntime.load {E : Type} (rt : CanaryRuntime E) (env : Env E) :
    Except (List Char) (CanaryRuntime E) :=
  match rt.model with
  | some _ => Except.ok rt
  | none =>
    match env.restore rt.config.model_path with
    | Except.ok m => Except.ok { rt with model := some m }
    | Except.error e => Except.error e

/-- Two's-complement reading of a 16-bit little-endian sample, the view
`np.frombuffer(..., dtype=np.int16)` takes of the file bytes. -/
def toInt16 (n : Nat) : Int :=
  if n % 65536 < 32768 then ((n % 65536 : Nat) : Int)
  else ((n % 65536 : Nat) : Int) - 65536

/-- `np.frombuffer` raises `ValueError` when the buffer size is not a
multiple of the two-byte element size; that is the `none` case. -/
def decodeInt16LE : List Nat → Option (List Int)
  | [] => some []
  | [_] => none
  | b0 :: b1 :: rest =>
    (decodeInt16LE rest).map (fun l => toInt16 (b0 % 256 + 256 * (b1 % 256)) :: l)

/-- `.astype(np.float32) / 32768.0`: division of an int16 value by the
power of two `32768` is exact in floating point, so the rationals model it
faithfully. -/
def normalizeSamples (samples : List Int) : List ℚ :=
  samples.map (fun s => (s : ℚ) / 32768)

def olookup : JVal → List Char → Option JVal
  | JVal.ocons k v t, key =>
    (match olookup t key with
     | some r => some r
     | none => if k = key then some v else none)
  | _, _ => none

/-- `dict.get(key)`: Python returns `None` both when the key is missing
and when the stored value is the JSON `null`, so both map to `none`. -/
def pyGet (m : JVal) (key : List Char) : Option JVal :=
  match olookup m key with
  | some JVal.jnull => none
  | r => r

/-- `CanaryRuntime.transcribe` (source lines 56-65): guard on the Engine
Handle, read the file, reinterpret the bytes as int16 samples, normalize,
run inference, and extract a text from the result shape (a list of
structured results, or the string rendering of anything else). -/
def CanaryRuntime.transcribe {E : Type} (rt : CanaryRuntime E) (env : Env E)
    (wav_path : List Char) : Except (List Char) JVal :=
  match rt.model with
  | none => Except.error "Model not loaded".data
  | some engine =>
    match env.readFile wav_path with
    | Except.error e => Except.error e
    | Except.ok bytes =>
      match decodeInt16LE bytes with
      | none => Except.error "buffer size must be a multiple of element size".data
      | some samples =>
        match env.generate engine (normalizeSamples samples) with
        | Except.error e => Except.error e
        | Except.ok output =>
          match output with
          | JVal.anil => Except.error "list index out of range".data
          | JVal.acons d _ =>
            (match olookup d "text".data with
             | some v => Except.ok (JVal.ocons "text".data v JVal.onil)
             | none => Except.error (keyErrorStr "text".data))
          | other => Except.ok (JVal.ocons "text".data (JVal.jstr (pyStr other)) JVal.onil)

/-! ## The dispatch loop of `main` -/

def errorReply (e : List Char) : JVal :=
  JVal.ocons "type".data (JVal.jstr "error".data)
    (JVal.ocons "error".data (JVal.jstr e) JVal.onil)

def resultReply (v : JVal) : JVal :=
  JVal.ocons "type".data (JVal.jstr "result".data)
    (JVal.ocons "text".data v JVal.onil)

def readyReply : JVal := JVal.ocons "type".data (JVal.jstr "ready".data) JVal.onil

def fatalReply (e : List Char) : JVal :=
  JVal.ocons "type".data (JVal.jstr "fatal".data)
    (JVal.ocons "error".data (JVal.jstr e) JVal.onil)

def shutdownReply : JVal := JVal.ocons "type".data (JVal.jstr "shutdown".data) JVal.onil

inductive ExitKind where
  | normal
  | crashed
  deriving DecidableEq, Repr

inductive MainExit where
  | exit (code : Nat)
  | uncaught
  deriving DecidableEq, Repr

def isDictVal : JVal → Bool
  | JVal.onil => true
  | JVal.ocons _ _ _ => true
  | _ => false

/-- The body of the `transcribe` branch (source lines 111-117): the whole
handling is wrapped in one `try` whose `except` writes an error reply. -/
def handleTranscribe {E : Type} (env : Env E) (rt : CanaryRuntime E) (message : JVal) : JVal :=
  match olookup message "path".data with
  | some (JVal.jstr p) =>
    (match rt.transcribe env p with
     | Except.ok result =>
       (match olookup result "text".data with
        | some v => resultReply v
        | none => errorReply (keyErrorStr "text".data))
     | Except.error e => errorReply e)
  | some _ => errorReply "argument should be a str or an os.PathLike object".data
  | none => errorReply (keyErrorStr "path".data)

/-- Dispatch for one successfully decoded dict message; `k` continues the
loop on the rest of the stream. -/
def dictStep {E : Type} (env : Env E) (rt : CanaryRuntime E) (message : JVal)
    (rest : List Nat) (k : List Nat → List JVal × ExitKind) : List JVal × ExitKind :=
  match pyGet message "command".data with
  | some (JVal.jstr cmd) =>
    if cmd = "shutdown".data then ([ shutdownReply ], ExitKind.normal)
    else if cmd = "transcribe".data then
      (handleTranscribe env rt message :: (k rest).1, (k rest).2)
    else
      (errorReply ( "Unknown command ".data ++ cmd) :: (k rest).1, (k rest).2)
  | c => (errorReply ( "Unknown command ".data ++ pyStrOpt c) :: (k rest).1, (k rest).2)

/-- One iteration of the `while True` loop (source lines 101-119).  Only
`EOFError` is caught: a decode failure propagates and kills the process
(`ExitKind.crashed`), as does `message.get` on a non-dict value. -/
def loopBody {E : Type} (env : Env E) (rt : CanaryRuntime E)
    (k : List Nat → List JVal × ExitKind) (s : List Nat) : List JVal × ExitKind :=
  match read_message s with
  | ReadResult.eof => ([], ExitKind.normal)
  | ReadResult.decodeError => ([], ExitKind.crashed)
  | ReadResult.ok message rest =>
    if isDictVal message then dictStep env rt message rest k
    else ([], ExitKind.crashed)

def loopF {E : Type} (env : Env E) (rt : CanaryRuntime E) :
    Nat → List Nat → List JVal × ExitKind
  | 0, _ => ([], ExitKind.normal)
  | fuel + 1, s => loopBody env rt (loopF env rt fuel) s

/-- The dispatch loop on a stream `s` of inbound bytes: every successful
read consumes at least the 4 header bytes, so `s.length + 1` rounds of
`loopBody` always suffice. -/
def loop {E : Type} (env : Env E) (rt : CanaryRuntime E) (s : List Nat) :
    List JVal × ExitKind :=
  loopF env rt (s.length + 1) s

/-- `main` (source lines 86-121): the `CanaryRuntime` constructor runs
before the `try` block, so its exceptions (wrong device, MPS backend
unavailable) escape `main` uncaught and unreported; only `load` failures
produce the `fatal` reply and exit code 1. -/
def mainP {E : Type} (env : Env E) (model_arg device_arg : List Char) (stdin : List Nat) :
    List JVal × MainExit :=
  if device_arg = "mps".data then
    if env.mpsAvailable then
      match CanaryRuntime.load ⟨⟨model_arg, device_arg⟩, none⟩ env with
      | Except.error e => ([ fatalReply e ], MainExit.exit 1)
      | Except.ok rt =>
        (readyReply :: (loop env rt stdin).1,
          match (loop env rt stdin).2 with
          | ExitKind.normal => MainExit.exit 0
          | ExitKind.crashed => MainExit.uncaught)
    else ([], MainExit.uncaught)
  else ([], MainExit.uncaught)

/-! ## Unfolding the loop one frame at a time -/

theorem read_message_ok_len {s : List Nat} {v : JVal} {rest : List Nat}
    (h : read_message s = ReadResult.ok v rest) : rest.length + 4 ≤ s.length := by
  unfold read_message at h
  by_cases h1 : (s.take 4).length < 4
  · rw [if_pos h1] at h; cases h
  rw [if_neg h1] at h
  have hs4 : 4 ≤ s.length := by
    simp only [List.length_take] at h1
    omega
  by_cases h2 : ((s.drop 4).take (fromBytesBE (s.take 4))).length ≠ fromBytesBE (s.take 4)
  · rw [if_pos h2] at h; cases h
  rw [if_neg h2] at h
  cases hu : utf8Decode ((s.drop 4).take (fromBytesBE (s.take 4))) with
  | none => rw [hu] at h; cases h
  | some chars =>
    rw [hu] at h
    dsimp only at h
    cases hj : jsonLoads chars with
    | none => rw [hj] at h; cases h
    | some w =>
      rw [hj] at h
      dsimp only at h
      cases h
      simp only [List.length_drop]
      omega

theorem dictStep_congr {E : Type} (env : Env E) (rt : CanaryRuntime E) (message : JVal)
    (rest : List Nat) (k k2 : List Nat → List JVal × ExitKind) (h : k rest = k2 rest) :
    dictStep env rt message rest k = dictStep env rt message rest k2 := by
  unfold dictStep
  split
  · split_ifs <;> simp [h]
  · simp [h]

theorem loopF_irrel {E : Type} (env : Env E) (rt : CanaryRuntime E) :
    ∀ (f1 f2 : Nat) (s : List Nat), s.length < 4 * f1 → s.length < 4 * f2 →
    loopF env rt f1 s = loopF env rt f2 s := by
  intro f1
  induction f1 with
  | zero => intro f2 s h1 _; exact absurd h1 (by omega)
  | succ f1 ih =>
    intro f2 s h1 h2
    cases f2 with
    | zero => exact absurd h2 (by omega)
    | succ f2 =>
      simp only [loopF, loopBody]
      cases hr : read_message s with
      | eof => rfl
      | decodeError => rfl
      | ok message rest =>
        have hlen := read_message_ok_len hr
        by_cases hd : isDictVal message = true
        · simp only [hd, if_true]
          exact dictStep_congr env rt message rest _ _
            (ih f2 rest (by omega) (by omega))
        · simp only [Bool.not_eq_true] at hd
          simp only [hd, Bool.false_eq_true, if_false]

theorem loop_eq {E : Type} (env : Env E) (rt : CanaryRuntime E) (s : List Nat) :
    loop env rt s = loopBody env rt (loop env rt) s := by
  unfold loop
  rw [show loopF env rt (s.length + 1) s = loopBody env rt (loopF env rt s.length) s from rfl]
  unfold loopBody
  cases hr : read_message s with
  | eof => rfl
  | decodeError => rfl
  | ok message rest =>
    have hlen := read_message_ok_len hr
    by_cases hd : isDictVal message = true
    · simp only [hd, if_true]
      refine dictStep_congr env rt message rest _ _ ?_
      exact loopF_irrel env rt s.length (rest.length + 1) rest (by omega) (by omega)
    · simp only [Bool.not_eq_true] at hd
      simp only [hd, Bool.false_eq_true, if_false]

/-! ## Sample range facts for claim C9 -/

theorem toInt16_range (n : Nat) : -32768 ≤ toInt16 n ∧ toInt16 n ≤ 32767 := by
  unfold toInt16
  split_ifs with h <;> constructor <;> omega

theorem decodeInt16LE_inv {bytes : List Nat} {x : Int} {xs : List Int}
    (h : decodeInt16LE bytes = some (x :: xs)) :
    ∃ b0 b1 bytes2, bytes = b0 :: b1 :: bytes2 ∧ decodeInt16LE bytes2 = some xs ∧
      x = toInt16 (b0 % 256 + 256 * (b1 % 256)) := by
  match bytes with
  | [] => cases h
  | [b] => cases h
  | b0 :: b1 :: bytes2 =>
    rw [show decodeInt16LE (b0 :: b1 :: bytes2) =
      (decodeInt16LE bytes2).map (fun l => toInt16 (b0 % 256 + 256 * (b1 % 256)) :: l)
      from rfl] at h
    cases hd : decodeInt16LE bytes2 with
    | none => rw [hd] at h; cases h
    | some l =>
      rw [hd] at h
      rw [show (some l).map (fun l => toInt16 (b0 % 256 + 256 * (b1 % 256)) :: l) =
        some (toInt16 (b0 % 256 + 256 * (b1 % 256)) :: l) from rfl] at h
      cases h
      exact ⟨b0, b1, bytes2, rfl, hd, rfl⟩

theorem decodeInt16LE_range : ∀ (samples : List Int) (bytes : List Nat),
    decodeInt16LE bytes = some samples → ∀ x ∈ samples, -32768 ≤ x ∧ x ≤ 32767 := by
  intro samples
  induction samples with
  | nil => intro bytes _ x hx; cases hx
  | cons y ys ih =>
    intro bytes h x hx
    obtain ⟨b0, b1, bytes2, rfl, h2, hy⟩ := decodeInt16LE_inv h
    cases hx with
    | head => subst hy; exact toInt16_range _
    | tail _ hmem => exact ih bytes2 h2 x hmem

/-! ## Witness fixtures: a concrete environment over a unit engine -/

def unitEnv : Env Unit :=
  { mpsAvailable := true
    restore := fun _ => Except.ok ()
    readFile := fun _ => Except.error "io error".data
    generate := fun _ _ => Except.error "inference failed".data }

def rtReady : CanaryRuntime Unit := ⟨⟨ "model".data, "mps".data⟩, some ()⟩

def rtEmpty : CanaryRuntime Unit := ⟨⟨ "model".data, "mps".data⟩, none⟩

def frobMsg : JVal := JVal.ocons "command".data (JVal.jstr "frobnicate".data) JVal.onil

def transcribeMsg : JVal :=
  JVal.ocons "command".data (JVal.jstr "transcribe".data)
    (JVal.ocons "path".data (JVal.jstr "/a".data) JVal.onil)

/-- A frame whose payload is not well-formed JSON. -/
def badFrame : List Nat :=
  toBytesBE 4 (utf8Encode "not json".data).length ++ utf8Encode "not json".data

/-! ## The claims -/

/-- C1.  The claim says a frame whose payload is malformed JSON is
converted into an `Error` reply and the loop continues.  The code does
not do this: `read_message` raises `json.JSONDecodeError`, and the
dispatch loop catches only `EOFError` (source lines 102-105), so one
malformed payload kills the process.  This theorem evaluates the worker
on the failing input: the frame carrying the payload `not json` makes
`read_message` report a decode failure and the loop ends in the crashed
state, with no `Error` reply written. -/
theorem claim1_malformed_payload_crashes :
    read_message badFrame = ReadResult.decodeError ∧
      loop unitEnv rtReady badFrame = ([], ExitKind.crashed) := by
  constructor <;> rfl

/-- C2, counterexample.  With device string `cpu`, `main` writes no
message at all (in particular no `Fatal`) and terminates by an uncaught
exception rather than returning 1: the `CanaryRuntime` constructor runs
before the `try` block (source line 92). -/
theorem claim2_counterexample :
    mainP unitEnv "model".data "cpu".data [] = ([], MainExit.uncaught) := by
  rfl

/-- C2, amended.  For every device identifier other than `mps`, startup
is a hard failure with no dispatch loop running, but the failure is an
uncaught `RuntimeError` escaping `main`: nothing is written to the
channel (no `Fatal` message) and the process dies with the interpreter's
traceback instead of the `return 1` path. -/
theorem claim2_amended {E : Type} (env : Env E) (mp dev : List Char) (stdin : List Nat)
    (h : dev ≠ "mps".data) :
    mainP env mp dev stdin = ([], MainExit.uncaught) := by
  unfold mainP
  rw [if_neg h]

theorem claim2_amended_witness :
    mainP unitEnv "model".data "cpu".data [] = ([], MainExit.uncaught) :=
  claim2_amended unitEnv "model".data "cpu".data [] (by decide)

/-- C3.  Framing round trip: writing any protocol message with
`write_message` and reading the resulting bytes back with `read_message`
yields exactly the message written, with the rest of the stream
untouched. -/
theorem claim3_roundtrip (m : Message) (bs rest : List Nat)
    (hw : write_message (msgToJson m) = some bs) :
    read_message (bs ++ rest) = ReadResult.ok (msgToJson m) rest :=
  read_message_write (msgToJson m) bs rest hw (jsonLoads_dumps_msg m)

theorem claim3_roundtrip_witness :
    read_message ((write_message (msgToJson Message.ready)).getD [] ++ []) =
      ReadResult.ok (msgToJson Message.ready) [] :=
  claim3_roundtrip Message.ready ((write_message (msgToJson Message.ready)).getD []) []
    (by rfl)

/-- C4.  Truncation safety: when fewer than 4 header bytes are available,
or the header declares length `L` and fewer than `L` payload bytes arrive
before the stream closes, `read_message` signals end of stream and never
returns a partially decoded message, and the dispatch loop exits normally
with no further output. -/
theorem claim4_truncation {E : Type} (env : Env E) (rt : CanaryRuntime E) (s : List Nat)
    (h : s.length < 4 ∨ s.length < 4 + fromBytesBE (s.take 4)) :
    read_message s = ReadResult.eof ∧ loop env rt s = ([], ExitKind.normal) := by
  have heof : read_message s = ReadResult.eof := by
    unfold read_message
    by_cases h1 : (s.take 4).length < 4
    · rw [if_pos h1]
    · have hs4 : 4 ≤ s.length := by
        simp only [List.length_take] at h1
        omega
      have hL : s.length < 4 + fromBytesBE (s.take 4) := by
        rcases h with h | h
        · omega
        · exact h
      rw [if_neg h1]
      rw [if_pos (by simp only [List.length_take, List.length_drop]; omega)]
  refine ⟨heof, ?_⟩
  rw [loop_eq]
  unfold loopBody
  rw [heof]

theorem claim4_truncation_witness :
    read_message [0, 0, 0, 5] = ReadResult.eof ∧
      loop unitEnv rtReady [0, 0, 0, 5] = ([], ExitKind.normal) :=
  claim4_truncation unitEnv rtReady [0, 0, 0, 5] (Or.inr (by decide))

/-- C5.  Unknown command: a decoded dict whose command tag is a string
that is neither `transcribe` nor `shutdown` produces exactly one `Error`
reply reading `Unknown command ` followed by the tag, and the loop
continues on the rest of the stream with the same runtime state. -/
theorem claim5_unknown_command {E : Type} (env : Env E) (rt : CanaryRuntime E)
    (s : List Nat) (message : JVal) (rest : List Nat) (tag : List Char)
    (hread : read_message s = ReadResult.ok message rest)
    (hdict : isDictVal message = true)
    (hcmd : pyGet message "command".data = some (JVal.jstr tag))
    (hsd : tag ≠ "shutdown".data) (htr : tag ≠ "transcribe".data) :
    loop env rt s =
      (errorReply ( "Unknown command ".data ++ tag) :: (loop env rt rest).1,
        (loop env rt rest).2) := by
  rw [loop_eq]
  unfold loopBody
  rw [hread]
  simp only [hdict, if_true]
  unfold dictStep
  rw [hcmd]
  dsimp only
  rw [if_neg hsd, if_neg htr]

theorem claim5_unknown_command_witness :
    loop unitEnv rtReady ((write_message frobMsg).getD []) =
      (errorReply ( "Unknown command ".data ++ "frobnicate".data) ::
        (loop unitEnv rtReady []).1, (loop unitEnv rtReady []).2) :=
  claim5_unknown_command unitEnv rtReady ((write_message frobMsg).getD []) frobMsg []
    "frobnicate".data (by rfl) (by rfl) (by rfl) (by decide) (by decide)

/-- C6.  Error isolation: a `transcribe` request whose handling fails
(the transcription raises, for any reason the environment produces)
yields exactly one `Error` reply carrying the exception text, and the
loop continues on the rest of the stream with the same runtime `rt` —
the Engine Handle is unchanged and the next request is served normally. -/
theorem claim6_error_isolation {E : Type} (env : Env E) (rt : CanaryRuntime E)
    (s : List Nat) (message : JVal) (rest : List Nat) (p e : List Char)
    (hread : read_message s = ReadResult.ok message rest)
    (hdict : isDictVal message = true)
    (hcmd : pyGet message "command".data = some (JVal.jstr "transcribe".data))
    (hpath : olookup message "path".data = some (JVal.jstr p))
    (hfail : rt.transcribe env p = Except.error e) :
    loop env rt s = (errorReply e :: (loop env rt rest).1, (loop env rt rest).2) := by
  rw [loop_eq]
  unfold loopBody
  rw [hread]
  simp only [hdict, if_true]
  unfold dictStep
  rw [hcmd]
  dsimp only
  rw [if_neg (by decide), if_pos rfl]
  unfold handleTranscribe
  rw [hpath]
  dsimp only
  rw [hfail]

theorem claim6_error_isolation_witness :
    loop unitEnv rtReady ((write_message transcribeMsg).getD []) =
      (errorReply "io error".data :: (loop unitEnv rtReady []).1,
        (loop unitEnv rtReady []).2) :=
  claim6_error_isolation unitEnv rtReady ((write_message transcribeMsg).getD [])
    transcribeMsg [] "/a".data "io error".data (by rfl) (by rfl) (by rfl) (by rfl) (by rfl)

/-- C7.  State gating: with an empty Engine Handle, `transcribe` fails
with `Model not loaded` for every environment `env` — the result does not
depend on `env.generate` at all, so the inference capability is never
invoked. -/
theorem claim7_state_gating {E : Type} (env : Env E) (rt : CanaryRuntime E) (p : List Char)
    (h : rt.model = none) :
    rt.transcribe env p = Except.error "Model not loaded".data := by
  unfold CanaryRuntime.transcribe
  rw [h]

theorem claim7_state_gating_witness :
    rtEmpty.transcribe unitEnv "/a".data = Except.error "Model not loaded".data :=
  claim7_state_gating unitEnv rtEmpty "/a".data (by rfl)

/-- C8.  Load-once: whenever a `load` succeeds and returns runtime
`rt2`, calling `load` again on `rt2` is a no-op returning `rt2`
unchanged — the Engine Handle populated by the first call is never
replaced. -/
theorem claim8_load_once {E : Type} (env : Env E) (rt rt2 : CanaryRuntime E)
    (h : rt.load env = Except.ok rt2) : rt2.load env = Except.ok rt2 := by
  unfold CanaryRuntime.load at h ⊢
  cases hm : rt.model with
  | some m =>
    rw [hm] at h
    cases h
    rw [hm]
  | none =>
    rw [hm] at h
    cases hr : env.restore rt.config.model_path with
    | ok m =>
      rw [hr] at h
      cases h
      rfl
    | error e =>
      rw [hr] at h
      cases h

theorem claim8_load_once_witness :
    CanaryRuntime.load rtReady unitEnv = Except.ok rtReady :=
  claim8_load_once unitEnv rtEmpty rtReady (by rfl)

/-- C9.  Sample normalization: every 16-bit signed sample decoded from
the audio bytes lies in the int16 range, and the value passed toward the
inference capability — the corresponding element of `normalizeSamples`,
the sample divided by `32768` — lies in the closed interval from -1 to
1. -/
theorem normalizeSamples_mem : ∀ (l : List Int) (q : ℚ), q ∈ normalizeSamples l →
    ∃ x, x ∈ l ∧ q = (x : ℚ) / 32768 := by
  intro l
  induction l with
  | nil => intro q hq; simp [normalizeSamples] at hq
  | cons a t ih =>
    intro q hq
    simp only [normalizeSamples, List.map_cons] at hq
    cases hq with
    | head => exact ⟨a, List.mem_cons_self a t, rfl⟩
    | tail _ hmem =>
      obtain ⟨x, hx, he⟩ := ih q hmem
      exact ⟨x, List.mem_cons_of_mem a hx, he⟩

theorem claim9_normalization (bytes : List Nat) (samples : List Int)
    (h : decodeInt16LE bytes = some samples) :
    ∀ q ∈ normalizeSamples samples, -1 ≤ q ∧ q ≤ 1 := by
  intro q hq
  obtain ⟨x, hx, hxq⟩ := normalizeSamples_mem samples q hq
  subst hxq
  have hb := decodeInt16LE_range samples bytes h x hx
  have hxq1 : (-32768 : ℚ) ≤ (x : ℚ) := by exact_mod_cast hb.1
  have hxq2 : (x : ℚ) ≤ 32767 := by exact_mod_cast hb.2
  constructor
  · rw [le_div_iff₀ (by norm_num : (0 : ℚ) < 32768)]
    linarith
  · rw [div_le_iff₀ (by norm_num : (0 : ℚ) < 32768)]
    linarith

theorem claim9_normalization_witness :
    decodeInt16LE [0, 128] = some [(-32768 : Int)] ∧
      ∀ q ∈ normalizeSamples [(-32768 : Int)], -1 ≤ q ∧ q ≤ 1 :=
  ⟨by decide, claim9_normalization [0, 128] [(-32768 : Int)] (by decide)⟩

/-- C10.  A decoded JSON object with no `command` key does not break the
worker: `dict.get` yields Python `None`, the f-string renders it as
`None`, so the reply is an `Error` reading `Unknown command None` and the
loop continues on the rest of the stream. -/
theorem claim10_missing_command {E : Type} (env : Env E) (rt : CanaryRuntime E)
    (s : List Nat) (message : JVal) (rest : List Nat)
    (hread : read_message s = ReadResult.ok message rest)
    (hdict : isDictVal message = true)
    (hnone : olookup message "command".data = none) :
    loop env rt s =
      (errorReply "Unknown command None".data :: (loop env rt rest).1,
        (loop env rt rest).2) := by
  rw [loop_eq]
  unfold loopBody
  rw [hread]
  simp only [hdict, if_true]
  unfold dictStep
  have hget : pyGet message "command".data = none := by
    unfold pyGet
    rw [hnone]
  rw [hget]
  dsimp only
  rw [show ( "Unknown command ".data ++ pyStrOpt none) = "Unknown command None".data
    from by decide]

theorem claim10_missing_command_witness :
    loop unitEnv rtReady ((write_message JVal.onil).getD []) =
      (errorReply "Unknown command None".data :: (loop unitEnv rtReady []).1,
        (loop unitEnv rtReady []).2) :=
  claim10_missing_command unitEnv rtReady ((write_message JVal.onil).getD [])
    JVal.onil [] (by rfl) (by rfl) (by rfl)

end HexCanary
